import Mathlib

/-!
Verification of the rushd Instance Orchestration & State-Reconciliation
Engine against its natural-language specification.

The Lean definitions below are a shallow embedding of the Python source
under `src/rushd/`:

* `logs.py` — `LogEntry`, `ActivityState`, `ClaudeLogReader.detect_activity_state`;
* `store.py` — `InstanceStore` (`_load_raw`, `add`, `update`, `list_all`,
  `find_by_name_or_id`);
* `manager.py` — `ClaudeInstanceManager` (`stop_instance`, `refresh_statuses`,
  `get_activity_state`);
* `tmux.py` — `TmuxController.wait_for_idle`;
* `notifications.py` — `NotificationStore` (`_get_filename`, `mark_delivered`).

Modelling conventions: a Python `dict` (insertion-ordered) becomes an
association list `List (String × _)`; `datetime` values become integer
epoch seconds where only ordering/subtraction matters, and a structured
calendar record where textual formatting matters; external effects
(tmux subprocess calls, the wall clock, the log reader) become explicit
environment records of pure functions; a raised exception becomes an
explicit error value produced before any state change of the model.
Python truthiness of an optional string (`if x:`) is modelled by
`truthy`: `none` and `some ""` are falsy. String primitives
(`startswith`, `lower`, `in`) are modelled on the character list
`String.data` so they evaluate inside the kernel.
-/

namespace Rushd

/-! ## Activity Detector (`src/rushd/logs.py`) -/

/-- The five detector statuses of `logs.ActivityState.status`
(`Literal["thinking", "tool_use", "running", "idle", "unknown"]`). -/
inductive DetStatus where
  | thinking
  | tool_use
  | running
  | idle
  | unknown
deriving DecidableEq, Repr

/-- `logs.ActivityState`: status plus metadata, with the Python defaults
`tool_name=None`, `seconds_since_activity=0.0` (seconds modelled as `Int`). -/
structure ActivityState where
  status : DetStatus
  tool_name : Option String := none
  seconds_since_activity : Int := 0
deriving DecidableEq, Repr

/-- `logs.LogEntry`, as produced by `ClaudeLogReader._parse_entry`.
The `timestamp` string field is embedded as its ISO-8601 parse outcome:
`some t` when `datetime.fromisoformat` succeeds (epoch seconds `t`),
`none` when it raises `ValueError` (or `AttributeError` on a non-string
value). `tool_input` is kept abstract as key/value pairs. -/
structure LogEntry where
  type : String
  timestamp : Option Int
  uuid : String
  thinking : Option String := none
  tool_name : Option String := none
  tool_input : List (String × String) := []
  tool_result : Option String := none
  is_error : Bool := false
  text_response : Option String := none
  user_message : Option String := none
deriving DecidableEq, Repr

/-- Python truthiness of an optional string: `None` and `""` are falsy. -/
def truthy : Option String → Bool
  | none => false
  | some s => !(s == "")

/-- The `seconds_ago` computation of `detect_activity_state`
(`logs.py` lines 188–195): elapsed seconds since the entry's
timestamp, or `0.0` when the timestamp fails to parse. -/
def secondsSince (e : LogEntry) (now : Int) : Int :=
  match e.timestamp with
  | some t => now - t
  | none => 0

/-- `ClaudeLogReader.detect_activity_state` (`logs.py` lines 169–229),
taking the already-read entry list (`read_entries(last_n=5)`), the current
time `now`, and `idle_threshold_seconds`. `entries[-1]` is `getLast?`. -/
def detect_activity_state (entries : List LogEntry) (now : Int)
    (idle_threshold : Int) : ActivityState :=
  match entries.getLast? with
  | none => { status := .unknown }
  | some latest =>
    let seconds_ago := secondsSince latest now
    if idle_threshold ≤ seconds_ago then
      { status := .idle, seconds_since_activity := seconds_ago }
    else if truthy latest.thinking then
      { status := .thinking, seconds_since_activity := seconds_ago }
    else if truthy latest.tool_name then
      { status := .tool_use, tool_name := latest.tool_name,
        seconds_since_activity := seconds_ago }
    else if latest.tool_result.isSome then
      { status := .tool_use, seconds_since_activity := seconds_ago }
    else
      { status := .running, seconds_since_activity := seconds_ago }

/-- A sample entry carrying a tool invocation (older entry in the batch). -/
def sampleToolEntry : LogEntry :=
  { type := "assistant", timestamp := some 100, uuid := "u1",
    tool_name := some "Bash" }

/-- A sample most-recent entry carrying a thinking field. -/
def sampleThinkingEntry : LogEntry :=
  { type := "assistant", timestamp := some 109, uuid := "u2",
    thinking := some "pondering" }

/-- An entry whose timestamp string failed ISO parsing. -/
def sampleBadTimestampEntry : LogEntry :=
  { type := "assistant", timestamp := none, uuid := "u3",
    tool_name := some "Read" }

/-! ## String helpers

Executable character-list models of the Python string primitives used by
the Registry: `str.startswith`, `str.lower`, and the `in` substring test. -/

/-- Is the first character list a prefix of the second? -/
def isPrefixList : List Char → List Char → Bool
  | [], _ => true
  | _ :: _, [] => false
  | a :: as, b :: bs => a == b && isPrefixList as bs

/-- Does the second character list contain the first as a contiguous
sublist (Python `needle in hay`)? The empty needle is always contained. -/
def containsList (needle : List Char) : List Char → Bool
  | [] => isPrefixList needle []
  | b :: bs => isPrefixList needle (b :: bs) || containsList needle bs

/-- Python `s.startswith(pre)`. -/
def strStartsWith (s pre : String) : Bool :=
  isPrefixList pre.data s.data

/-- ASCII lower-casing of one character (Python `str.lower` restricted to
ASCII, which covers the identifiers and names at issue). -/
def lowerChar (c : Char) : Char :=
  if 65 ≤ c.toNat ∧ c.toNat ≤ 90 then Char.ofNat (c.toNat + 32) else c

/-- Python `needle.lower() in hay.lower()`. -/
def strContainsCI (hay needle : String) : Bool :=
  containsList (needle.data.map lowerChar) (hay.data.map lowerChar)

/-! ## Registry (`src/rushd/models.py`, `src/rushd/store.py`) -/

/-- `models.InstanceStatus`. -/
inductive InstanceStatus where
  | starting
  | running
  | thinking
  | tool_use
  | idle
  | stopped
  | error
deriving DecidableEq, Repr

/-- `models.DisplayMode`. -/
inductive DisplayMode where
  | activity
  | raw
deriving DecidableEq, Repr

/-- `models.InstanceMetadata`. Paths and tmux targets are strings;
`created_at` and `last_activity` are epoch seconds. -/
structure InstanceMetadata where
  id : String
  full_id : String
  name : Option String := none
  status : InstanceStatus := .starting
  working_dir : String
  tmux_window : String
  tmux_pane_id : String := ""
  created_at : Int := 0
  model : Option String := none
  last_activity : Option Int := none
  claude_session_id : Option String := none
  display_mode : DisplayMode := .activity
  auto_approve : Bool := true
deriving DecidableEq, Repr

/-- The `instances` dict of the store: an insertion-ordered association
list from id to record, as a Python `dict[str, InstanceMetadata]`. -/
abbrev Instances := List (String × InstanceMetadata)

/-- `models.InstanceStore`, the root model of `instances.json`. -/
structure StoreModel where
  version : String := "1.0"
  session_name : String := "rushd-instances"
  instances : Instances := []
deriving DecidableEq, Repr

/-- Python dict lookup `instances.get(k)` / `instances[k]` combined with
the membership test `k in instances`. -/
def lookupInst (insts : Instances) (k : String) : Option InstanceMetadata :=
  (insts.find? (fun p => p.1 == k)).map Prod.snd

/-- Python dict assignment `instances[k] = v`: replace in place when the
key exists, else append (dicts preserve insertion order). -/
def dictInsert (insts : Instances) (k : String) (v : InstanceMetadata) :
    Instances :=
  if (insts.find? (fun p => p.1 == k)).isSome then
    insts.map (fun p => if p.1 == k then (p.1, v) else p)
  else
    insts ++ [(k, v)]

/-- The on-disk condition of `instances.json` as seen by
`InstanceStore._load_raw` (`store.py` lines 42–51): the file may be
absent, unreadable (`IOError`), not JSON at all (`json.JSONDecodeError`),
JSON that fails `StoreModel.model_validate` (pydantic `ValidationError`,
e.g. the content `[1, 2]`), or a well-formed store. -/
inductive RawFile where
  | missing
  | unreadable
  | badJson
  | badSchema
  | wellFormed (m : StoreModel)

/-- `InstanceStore._load_raw`: a missing file returns `StoreModel()`;
`json.JSONDecodeError` and `IOError` are caught and return `StoreModel()`;
a pydantic `ValidationError` from `model_validate` is in neither caught
class, so it propagates (`Except.error`). -/
def load_raw : RawFile → Except Unit StoreModel
  | .missing => .ok {}
  | .unreadable => .ok {}
  | .badJson => .ok {}
  | .badSchema => .error ()
  | .wellFormed m => .ok m

/-- One step of Python's stable `sorted(..., key=lambda x: x.created_at)`:
insert after every element with a key less than or equal. -/
def insertByCreated (i : InstanceMetadata) :
    List InstanceMetadata → List InstanceMetadata
  | [] => [i]
  | j :: rest =>
    if j.created_at ≤ i.created_at then j :: insertByCreated i rest
    else i :: j :: rest

/-- Stable insertion sort by `created_at`, modelling Python `sorted`. -/
def sortByCreated (l : List InstanceMetadata) : List InstanceMetadata :=
  l.foldl (fun acc i => insertByCreated i acc) []

/-- `InstanceStore.list_all` (`store.py` lines 122–128) on loaded
instances: all values, optionally dropping `stopped`, sorted by
`created_at`. -/
def list_all (insts : Instances) (include_stopped : Bool) :
    List InstanceMetadata :=
  let vals := insts.map Prod.snd
  let vals := if include_stopped then vals
              else vals.filter (fun i => !(i.status == .stopped))
  sortByCreated vals

/-- `InstanceStore.add` (`store.py` lines 80–92) under the exclusive lock,
acting on the loaded instances. The first component is the raised
`ValueError` (`some ()` models the `AlreadyExists` message); the second is
the on-disk content after the call: unchanged when the error is raised
(the `raise` precedes `_save_raw`), else the store with the record
inserted under `instance.id` and saved. -/
def add (insts : Instances) (inst : InstanceMetadata) :
    Option Unit × Instances :=
  if truthy inst.name &&
      insts.any (fun p => truthy p.2.name && p.2.name == inst.name) then
    (some (), insts)
  else
    (none, dictInsert insts inst.id inst)

/-- `InstanceStore.update` (`store.py` lines 94–105) specialised to its
call sites: `f` replaces exactly the keyword fields passed by the caller
(`model_dump` / merge / `model_validate` round-trip). Returns the updated
record (`none` when the id is absent) and the persisted instances. -/
def update (insts : Instances) (instance_id : String)
    (f : InstanceMetadata → InstanceMetadata) :
    Option InstanceMetadata × Instances :=
  match lookupInst insts instance_id with
  | none => (none, insts)
  | some i =>
    (some (f i), insts.map (fun p => if p.1 == instance_id then (p.1, f i) else p))

/-- `InstanceStore.find_by_name_or_id` (`store.py` lines 130–154):
exact id (dict membership), then first id-prefix match, then first exact
(truthy) name match, then first case-insensitive substring match on a
truthy name, else nothing. -/
def find_by_name_or_id (insts : Instances) (identifier : String) :
    Option InstanceMetadata :=
  match lookupInst insts identifier with
  | some inst => some inst
  | none =>
  match insts.find? (fun p => strStartsWith p.1 identifier) with
  | some p => some p.2
  | none =>
  match insts.find? (fun p => truthy p.2.name && p.2.name == some identifier) with
  | some p => some p.2
  | none =>
  match insts.find? (fun p =>
      truthy p.2.name && strContainsCI (p.2.name.getD "") identifier) with
  | some p => some p.2
  | none => none

/-- Reading `list_all` through `_load_raw` from a given file condition. -/
def list_all_from_file (f : RawFile) (include_stopped : Bool) :
    Except Unit (List InstanceMetadata) :=
  (load_raw f).map (fun m => list_all m.instances include_stopped)

/-- Reading `get` through `_load_raw` from a given file condition. -/
def get_from_file (f : RawFile) (k : String) :
    Except Unit (Option InstanceMetadata) :=
  (load_raw f).map (fun m => lookupInst m.instances k)

/-! ## Orchestrator (`src/rushd/manager.py`) -/

/-- The external world consumed by `ClaudeInstanceManager`, frozen for the
duration of a reconciliation pass: tmux window existence per window
target, the per-working-directory activity detector outcome
(`ClaudeLogReader(working_dir).detect_activity_state()`, a function of
the log content and the clock), the boolean results of
`send_interrupt`/`kill_window`, and the wall clock `datetime.now()`. -/
structure ManagerEnv where
  windowExists : String → Bool
  detect : String → ActivityState
  sendInterrupt : String → Bool
  killWindow : String → Bool
  now : Int

/-- `ClaudeInstanceManager.get_activity_state` (`manager.py` lines
254–272): unresolved identifier or dead window yields `unknown`, else the
detector result for the instance's working directory. -/
def get_activity_state (env : ManagerEnv) (insts : Instances)
    (identifier : String) : ActivityState :=
  match find_by_name_or_id insts identifier with
  | none => { status := .unknown }
  | some inst =>
    if env.windowExists inst.tmux_window then env.detect inst.working_dir
    else { status := .unknown }

/-- The `status_map` dict of `refresh_statuses` (`manager.py` lines
287–293), with the `.get(..., RUNNING)` default collapsing `unknown` to
`running`. -/
def status_map : DetStatus → InstanceStatus
  | .thinking => .thinking
  | .tool_use => .tool_use
  | .idle => .idle
  | .running => .running
  | .unknown => .running

/-- One iteration of the `refresh_statuses` loop (`manager.py` lines
277–299) for the snapshot record `inst`, acting on the current store:
dead window marks a non-stopped record `stopped`; live window reclassifies
via the Activity Detector and stamps `last_activity`. -/
def refresh_one (env : ManagerEnv) (insts : Instances)
    (inst : InstanceMetadata) : Instances :=
  if env.windowExists inst.tmux_window = false then
    if inst.status ≠ InstanceStatus.stopped then
      (update insts inst.id (fun i => { i with status := InstanceStatus.stopped })).2
    else insts
  else
    let activity := get_activity_state env insts inst.id
    (update insts inst.id (fun i =>
      { i with status := status_map activity.status,
               last_activity := some env.now })).2

/-- `ClaudeInstanceManager.refresh_statuses` (`manager.py` lines 274–299):
fold the loop body over the snapshot `list_all(include_stopped=True)`. -/
def refresh_statuses (env : ManagerEnv) (insts : Instances) : Instances :=
  (list_all insts true).foldl (refresh_one env) insts

/-- The record produced for a snapshot record by its own
`refresh_statuses` iteration (both branches of `refresh_one` collapsed). -/
def refreshResult (env : ManagerEnv) (inst : InstanceMetadata) :
    InstanceMetadata :=
  if env.windowExists inst.tmux_window = false then
    if inst.status ≠ InstanceStatus.stopped then
      { inst with status := InstanceStatus.stopped }
    else inst
  else
    { inst with status := status_map (env.detect inst.working_dir).status,
                last_activity := some env.now }

/-- The status `refresh_statuses` drives a record to, as a function of
its window target and working directory alone. -/
def targetStatus (env : ManagerEnv) (inst : InstanceMetadata) :
    InstanceStatus :=
  if env.windowExists inst.tmux_window then
    status_map (env.detect inst.working_dir).status
  else InstanceStatus.stopped

/-- `ClaudeInstanceManager.stop_instance` (`manager.py` lines 129–160):
resolve via `find_by_name_or_id`; unless `force`, send an interrupt and
sleep (result discarded); kill the window (result discarded); mark the
record `stopped`; return `True`. Unresolved identifiers return `False`
with the store untouched. -/
def stop_instance (env : ManagerEnv) (insts : Instances)
    (identifier : String) (force : Bool) : Bool × Instances :=
  match find_by_name_or_id insts identifier with
  | none => (false, insts)
  | some inst =>
    let _graceful := if force = false then env.sendInterrupt inst.tmux_window else true
    let _killed := env.killWindow inst.tmux_window
    (true, (update insts inst.id
      (fun i => { i with status := InstanceStatus.stopped })).2)

/-- A stopped record whose tmux window is still alive in `cexEnv`. -/
def stoppedGhost : InstanceMetadata :=
  { id := "a1", full_id := "a1-f", name := some "ghost",
    status := .stopped, working_dir := "/wg",
    tmux_window := "rushd-instances:9", created_at := 4 }

/-- An environment in which every window exists and the detector reports
`running`. -/
def cexEnv : ManagerEnv :=
  { windowExists := fun _ => true,
    detect := fun _ => { status := .running },
    sendInterrupt := fun _ => true,
    killWindow := fun _ => true,
    now := 50 }

/-- A one-record registry holding the stopped `stoppedGhost`. -/
def cexInsts : Instances := [("a1", stoppedGhost)]

/-- A running record named `alpha`. -/
def alphaInst : InstanceMetadata :=
  { id := "b2", full_id := "b2-f", name := some "alpha",
    status := .running, working_dir := "/wa",
    tmux_window := "rushd-instances:3", created_at := 5 }

/-- An environment in which no window exists and every tmux command
fails (interrupt and kill both report failure). -/
def deadEnv : ManagerEnv :=
  { windowExists := fun _ => false,
    detect := fun _ => { status := .unknown },
    sendInterrupt := fun _ => false,
    killWindow := fun _ => false,
    now := 60 }

/-- A one-record registry holding `alphaInst`. -/
def alphaInsts : Instances := [("b2", alphaInst)]

/-- Sample record with id `abc123` and name `zeta`. -/
def instA : InstanceMetadata :=
  { id := "abc123", full_id := "abc123-f", name := some "zeta",
    working_dir := "/w1", tmux_window := "rushd-instances:1", created_at := 1 }

/-- Sample record with id `x1` and name `abc` (an exact-name match for the
query `abc` competing with `instA`'s id prefix). -/
def instB : InstanceMetadata :=
  { id := "x1", full_id := "x1-f", name := some "abc",
    working_dir := "/w2", tmux_window := "rushd-instances:2", created_at := 2 }

/-- Sample record whose name collides with `instB`'s. -/
def instBClone : InstanceMetadata :=
  { id := "y2", full_id := "y2-f", name := some "abc",
    working_dir := "/w3", tmux_window := "rushd-instances:3", created_at := 3 }

/-- A two-record registry used by the witnesses. -/
def sampleInsts : Instances := [("abc123", instA), ("x1", instB)]

/-! ## Process Controller (`src/rushd/tmux.py`) -/

/-- The loop of `TmuxController.wait_for_idle` (`tmux.py` lines 148–178).
The wall-clock guard `time.time() - start < timeout` together with the
`poll_interval` sleep admits a fixed number of polls, embedded as one list
element per permitted poll, each holding the `capture_pane` content of
that poll; an exhausted list is the timeout returning `False`. The md5
hex digest is abstracted to a hash function `h`. State: the remembered
`last_hash` (`None` initially) and the `stable` counter. -/
def wait_for_idle_loop (h : String → Nat) (stable_count : Nat) :
    List String → Option Nat → Nat → Bool
  | [], _, _ => false
  | c :: rest, last_hash, stable =>
    if some (h c) = last_hash then
      if stable + 1 ≥ stable_count then true
      else wait_for_idle_loop h stable_count rest last_hash (stable + 1)
    else
      wait_for_idle_loop h stable_count rest (some (h c)) 0

/-- `TmuxController.wait_for_idle` over the poll sequence `captures`. -/
def wait_for_idle (h : String → Nat) (captures : List String)
    (stable_count : Nat) : Bool :=
  wait_for_idle_loop h stable_count captures none 0

/-- Polls `i, i+1, …, i+sc` all lie within the sequence and hash like poll
`i`: the hash was unchanged for `sc` consecutive polls starting after
poll `i`. -/
def hashRunFrom (h : String → Nat) (sc : Nat) (l : List String)
    (i : Nat) : Prop :=
  i + sc < l.length ∧ ∀ k, k ≤ sc → h (l.getD (i + k) "") = h (l.getD i "")

/-- Somewhere in the poll sequence the hash is unchanged for `sc`
consecutive polls. -/
def hasStableRun (h : String → Nat) (sc : Nat) (l : List String) : Prop :=
  ∃ i, hashRunFrom h sc l i

/-- A sample hash for the `wait_for_idle` witness. -/
def sampleHash (s : String) : Nat := s.data.length

instance (h : String → Nat) (sc : Nat) (l : List String) (i : Nat) :
    Decidable (hashRunFrom h sc l i) := by
  unfold hashRunFrom
  infer_instance

/-! ## Notification store (`src/rushd/notifications.py`) -/

/-- The notification status enum (spec §3: success, failure, info). -/
inductive NotificationStatus where
  | success
  | failure
  | info
deriving DecidableEq, Repr

/-- A Python `datetime` as a calendar record with microsecond
resolution, used where its textual formatting matters. -/
structure DateTime where
  year : Nat
  month : Nat
  day : Nat
  hour : Nat
  minute : Nat
  second : Nat
  microsecond : Nat
deriving DecidableEq, Repr

/-- Modelled from the spec: the `Notification` record (spec §3).
`notifications.py` imports `models.Notification`, but the class itself is
not among the provided sources; the fields follow the spec's data model
(`id`, `worker_id`, `worker_name`, `status ∈ {success, failure, info}`,
free-text `message`, `created_at`, `delivered` flag, `delivered_at`),
with `worker_name` optional as `_get_filename`'s
`notification.worker_name or "unknown"` requires. -/
structure Notification where
  id : String
  worker_id : String
  worker_name : Option String := none
  status : NotificationStatus := .info
  message : String := ""
  created_at : DateTime
  delivered : Bool := false
  delivered_at : Option DateTime := none
deriving DecidableEq, Repr

/-- Python `notification.worker_name or "unknown"`. -/
def orUnknown : Option String → String
  | some s => if s == "" then "unknown" else s
  | none => "unknown"

/-- The decimal digit character for `n < 10`. -/
def digitChar (n : Nat) : Char := Char.ofNat (48 + n)

/-- Zero-padded two-digit decimal (strftime `%m`, `%d`, `%H`, `%M`, `%S`
for in-range values). -/
def pad2 (n : Nat) : String := String.mk [digitChar (n / 10), digitChar (n % 10)]

/-- Zero-padded four-digit decimal (strftime `%Y` for the `datetime` year
range `1…9999`): the high and low two-digit halves. -/
def pad4 (n : Nat) : String := pad2 (n / 100) ++ pad2 (n % 100)

/-- `created_at.strftime("%Y%m%d_%H%M%S")` (`notifications.py` line 28):
second resolution, the microsecond field does not appear. -/
def strftimeSecond (t : DateTime) : String :=
  pad4 t.year ++ pad2 t.month ++ pad2 t.day ++ "_" ++
    pad2 t.hour ++ pad2 t.minute ++ pad2 t.second

/-- `re.sub(r"[^\w\-]", "_", name)` (`notifications.py` line 30) over
ASCII: word characters and hyphens kept, everything else replaced by an
underscore. -/
def sanitizeName (s : String) : String :=
  String.mk (s.data.map (fun c =>
    if c.isAlphanum || c = '_' || c = '-' then c else '_'))

/-- `NotificationStore._get_filename` (`notifications.py` lines 26–31):
`{safe_name}_{worker_id}_{timestamp}.json`. -/
def get_filename (n : Notification) : String :=
  sanitizeName (orUnknown n.worker_name) ++ "_" ++ n.worker_id ++ "_" ++
    strftimeSecond n.created_at ++ ".json"

/-- The notification directory: filename to stored content; `none` models
a file whose content fails `json.load`. -/
abbrev NotifDir := List (String × Option Notification)

/-- Reading one file of the directory (`none` = file does not exist). -/
def fsLookup (fs : NotifDir) (path : String) : Option (Option Notification) :=
  (fs.find? (fun p => p.1 == path)).map Prod.snd

/-- `NotificationStore.mark_delivered` (`notifications.py` lines 58–83):
a missing file returns `False`; unreadable JSON returns `False`; otherwise
the file is rewritten in place with `delivered = True` and
`delivered_at = now`, returning `True`. -/
def mark_delivered (fs : NotifDir) (path : String) (now : DateTime) :
    Bool × NotifDir :=
  match fsLookup fs path with
  | none => (false, fs)
  | some none => (false, fs)
  | some (some n) =>
    (true, fs.map (fun p =>
      if p.1 == path then
        (p.1, some { n with delivered := true, delivered_at := some now })
      else p))

/-- The second-resolution part of a datetime — exactly what
`strftime("%Y%m%d_%H%M%S")` renders. -/
def secondKey (t : DateTime) : Nat × Nat × Nat × Nat × Nat × Nat :=
  (t.year, t.month, t.day, t.hour, t.minute, t.second)

/-- Bounds within which the strftime rendering is fixed-width (true of
every Python `datetime`: year `1…9999`, the rest far below 100). -/
def validRange (t : DateTime) : Prop :=
  t.year < 10000 ∧ t.month < 100 ∧ t.day < 100 ∧
    t.hour < 100 ∧ t.minute < 100 ∧ t.second < 100

instance (t : DateTime) : Decidable (validRange t) := by
  unfold validRange
  infer_instance

/-- 2026-10-12 09:30:15.000001. -/
def microT1 : DateTime := ⟨2026, 10, 12, 9, 30, 15, 1⟩

/-- 2026-10-12 09:30:15.000002 — same second as `microT1`, different
microsecond. -/
def microT2 : DateTime := ⟨2026, 10, 12, 9, 30, 15, 2⟩

/-- 2026-10-12 09:30:16 — a different second. -/
def secT2 : DateTime := ⟨2026, 10, 12, 9, 30, 16, 0⟩

/-- Worker `builder`/`w1` notification created at `microT1`. -/
def notifMicroA : Notification :=
  { id := "n1", worker_id := "w1", worker_name := some "builder",
    created_at := microT1 }

/-- Worker `builder`/`w1` notification created at `microT2`. -/
def notifMicroB : Notification :=
  { id := "n2", worker_id := "w1", worker_name := some "builder",
    created_at := microT2 }

/-- Worker `builder`/`w1` notification created at `secT2`. -/
def notifSecB : Notification :=
  { id := "n3", worker_id := "w1", worker_name := some "builder",
    created_at := secT2 }

/-- A two-file notification directory. -/
def sampleNotifDir : NotifDir :=
  [(get_filename notifMicroA, some notifMicroA),
   (get_filename notifSecB, some notifSecB)]

end Rushd

namespace Rushd

/-! ## Theorems -/

/-- `List.find?` over the in-place replacement map of `dictInsert`. -/
theorem find?_map_replace (k : String) (v : InstanceMetadata)
    (insts : Instances) :
    List.find? (fun p => p.1 == k)
      (insts.map (fun p => if p.1 == k then (p.1, v) else p)) =
    (List.find? (fun p => p.1 == k) insts).map (fun p => (p.1, v)) := by
  induction insts with
  | nil => rfl
  | cons hd tl ih =>
    by_cases h : (hd.1 == k) = true
    · simp only [List.map_cons, if_pos h]
      rw [@List.find?_cons_of_pos _ (fun p => p.1 == k) (hd.1, v) _ h,
          @List.find?_cons_of_pos _ (fun p => p.1 == k) hd _ h]
      rfl
    · simp only [List.map_cons, if_neg h]
      rw [@List.find?_cons_of_neg _ (fun p => p.1 == k) hd _ h,
          @List.find?_cons_of_neg _ (fun p => p.1 == k) hd _ h, ih]

/-- After `dictInsert insts k v`, looking up `k` yields `v`. -/
theorem lookupInst_dictInsert_self (insts : Instances) (k : String)
    (v : InstanceMetadata) :
    lookupInst (dictInsert insts k v) k = some v := by
  unfold dictInsert lookupInst
  by_cases h : (List.find? (fun p => p.1 == k) insts).isSome
  · rw [if_pos h, find?_map_replace]
    obtain ⟨p, hp⟩ := Option.isSome_iff_exists.mp h
    rw [hp]
    rfl
  · rw [if_neg h]
    have hnone : List.find? (fun p => p.1 == k) insts = none :=
      Option.not_isSome_iff_eq_none.mp h
    rw [List.find?_append, hnone]
    simp

/-- C3: `detect_activity_state` follows exactly the ordered rule set on the
most recent entry: no entries yields `unknown`; elapsed ≥ threshold yields
`idle` with `seconds_since_activity ≥ threshold`; otherwise `thinking` if the
latest entry carries a (truthy) thinking field — older entries in the batch,
tool invocations included, are ignored, as the invariance conjunct shows —
else `tool_use` on a tool name, else `tool_use` on a tool result, else
`running`. -/
theorem detect_activity_state_ordered_rules (entries : List LogEntry)
    (now idle_threshold : Int) :
    (entries = [] →
      detect_activity_state entries now idle_threshold =
        { status := .unknown, tool_name := none, seconds_since_activity := 0 }) ∧
    (∀ latest, entries.getLast? = some latest →
      (detect_activity_state entries now idle_threshold =
        detect_activity_state [latest] now idle_threshold) ∧
      (idle_threshold ≤ secondsSince latest now →
        detect_activity_state entries now idle_threshold =
          { status := .idle, tool_name := none,
            seconds_since_activity := secondsSince latest now } ∧
        idle_threshold ≤
          (detect_activity_state entries now idle_threshold).seconds_since_activity) ∧
      (secondsSince latest now < idle_threshold →
        (truthy latest.thinking = true →
          detect_activity_state entries now idle_threshold =
            { status := .thinking, tool_name := none,
              seconds_since_activity := secondsSince latest now }) ∧
        (truthy latest.thinking = false → truthy latest.tool_name = true →
          detect_activity_state entries now idle_threshold =
            { status := .tool_use, tool_name := latest.tool_name,
              seconds_since_activity := secondsSince latest now }) ∧
        (truthy latest.thinking = false → truthy latest.tool_name = false →
          latest.tool_result.isSome = true →
          detect_activity_state entries now idle_threshold =
            { status := .tool_use, tool_name := none,
              seconds_since_activity := secondsSince latest now }) ∧
        (truthy latest.thinking = false → truthy latest.tool_name = false →
          latest.tool_result = none →
          detect_activity_state entries now idle_threshold =
            { status := .running, tool_name := none,
              seconds_since_activity := secondsSince latest now }))) := by
  constructor
  · intro h
    subst h
    rfl
  · intro latest hlast
    have hunfold : detect_activity_state entries now idle_threshold =
        detect_activity_state [latest] now idle_threshold := by
      unfold detect_activity_state
      rw [hlast]
      rfl
    refine ⟨hunfold, ?_, ?_⟩
    · intro hidle
      rw [hunfold]
      unfold detect_activity_state
      simp only [List.getLast?_singleton]
      rw [if_pos hidle]
      exact ⟨rfl, hidle⟩
    · intro hrecent
      have hnotidle : ¬ idle_threshold ≤ secondsSince latest now :=
        not_le.mpr hrecent
      refine ⟨?_, ?_, ?_, ?_⟩
      · intro hth
        rw [hunfold]
        unfold detect_activity_state
        simp only [List.getLast?_singleton]
        rw [if_neg hnotidle, if_pos hth]
      · intro hth htn
        rw [hunfold]
        unfold detect_activity_state
        simp only [List.getLast?_singleton]
        rw [if_neg hnotidle]
        simp [hth, htn]
      · intro hth htn htr
        rw [hunfold]
        unfold detect_activity_state
        simp only [List.getLast?_singleton]
        rw [if_neg hnotidle]
        simp [hth, htn, htr]
      · intro hth htn htr
        rw [hunfold]
        unfold detect_activity_state
        simp only [List.getLast?_singleton]
        rw [if_neg hnotidle]
        simp [hth, htn, htr]

/-- Witness for C3 at a concrete input: with an older tool-use entry and a
most-recent thinking entry one second old against a five-second threshold,
the detector reports `thinking`. -/
theorem detect_activity_state_ordered_rules_witness :
    detect_activity_state [sampleToolEntry, sampleThinkingEntry] 110 5 =
      { status := .thinking, tool_name := none, seconds_since_activity := 1 } := by
  have h := (detect_activity_state_ordered_rules
      [sampleToolEntry, sampleThinkingEntry] 110 5).2 sampleThinkingEntry rfl
  exact (h.2.2 (by decide)).1 (by decide)

/-- C10: a most-recent entry whose timestamp fails to parse is treated as
zero seconds old, so with any positive idle threshold it is never `idle`
and is classified by the content rules as fresh activity. -/
theorem detect_unparseable_timestamp_never_idle (entries : List LogEntry)
    (now idle_threshold : Int) (latest : LogEntry)
    (hlast : entries.getLast? = some latest)
    (hts : latest.timestamp = none)
    (hpos : 0 < idle_threshold) :
    (detect_activity_state entries now idle_threshold).status ≠ .idle ∧
    (detect_activity_state entries now idle_threshold).seconds_since_activity = 0 ∧
    (detect_activity_state entries now idle_threshold).status =
      (if truthy latest.thinking then .thinking
       else if truthy latest.tool_name then .tool_use
       else if latest.tool_result.isSome then .tool_use
       else .running) := by
  have hsec : secondsSince latest now = 0 := by
    unfold secondsSince
    rw [hts]
  have hnotidle : ¬ idle_threshold ≤ secondsSince latest now := by
    rw [hsec]
    exact not_le.mpr hpos
  unfold detect_activity_state
  rw [hlast]
  simp only
  rw [if_neg hnotidle]
  by_cases h1 : truthy latest.thinking
  · simp [h1, hsec]
  · by_cases h2 : truthy latest.tool_name
    · simp [h1, h2, hsec]
    · by_cases h3 : latest.tool_result.isSome
      · simp [h1, h2, h3, hsec]
      · simp [h1, h2, h3, hsec]

/-- Witness for C10 at a concrete input: an unparseable timestamp with a
tool name and threshold 5 is classified `tool_use`, not `idle`, with zero
seconds since activity. -/
theorem detect_unparseable_timestamp_never_idle_witness :
    (detect_activity_state [sampleBadTimestampEntry] 1000 5).status ≠ .idle ∧
    (detect_activity_state [sampleBadTimestampEntry] 1000 5).seconds_since_activity = 0 ∧
    (detect_activity_state [sampleBadTimestampEntry] 1000 5).status =
      (if truthy sampleBadTimestampEntry.thinking then .thinking
       else if truthy sampleBadTimestampEntry.tool_name then .tool_use
       else if sampleBadTimestampEntry.tool_result.isSome then .tool_use
       else .running) :=
  detect_unparseable_timestamp_never_idle [sampleBadTimestampEntry] 1000 5
    sampleBadTimestampEntry rfl rfl (by decide)

/-- C1: `add` raises `AlreadyExists` (the `ValueError`) exactly on a truthy
name colliding with an existing truthy name, leaving the persisted
instances unchanged; with an unset (falsy) name or no collision it inserts
the record under its id and persists it. -/
theorem add_name_unique_or_insert (insts : Instances)
    (inst : InstanceMetadata) :
    ((truthy inst.name = true ∧
      ∃ p, p ∈ insts ∧ truthy p.2.name = true ∧ p.2.name = inst.name) →
      (add insts inst).1 = some () ∧ (add insts inst).2 = insts) ∧
    ((truthy inst.name = false ∨
      ∀ p, p ∈ insts → ¬(truthy p.2.name = true ∧ p.2.name = inst.name)) →
      (add insts inst).1 = none ∧
      (add insts inst).2 = dictInsert insts inst.id inst ∧
      lookupInst (add insts inst).2 inst.id = some inst) := by
  constructor
  · rintro ⟨hname, p, hmem, hpname, heq⟩
    have hany : insts.any (fun p => truthy p.2.name && p.2.name == inst.name) = true := by
      rw [List.any_eq_true]
      exact ⟨p, hmem, by rw [Bool.and_eq_true, beq_iff_eq]; exact ⟨hpname, heq⟩⟩
    unfold add
    rw [hname, hany]
    exact ⟨rfl, rfl⟩
  · intro h
    have hcond : (truthy inst.name &&
        insts.any (fun p => truthy p.2.name && p.2.name == inst.name)) = false := by
      rcases h with h | h
      · rw [h, Bool.false_and]
      · have hany : insts.any (fun p => truthy p.2.name && p.2.name == inst.name) = false := by
          rw [List.any_eq_false]
          intro p hp
          intro hc
          rw [Bool.and_eq_true, beq_iff_eq] at hc
          exact h p hp hc
        rw [hany, Bool.and_false]
    unfold add
    rw [hcond]
    refine ⟨rfl, rfl, ?_⟩
    show lookupInst (dictInsert insts inst.id inst) inst.id = some inst
    exact lookupInst_dictInsert_self insts inst.id inst

/-- Witness for C1 at concrete inputs: adding `instBClone` (name `abc`)
to `sampleInsts` (which holds `instB`, also named `abc`) raises and leaves
the store unchanged; adding it to the empty store inserts it. -/
theorem add_name_unique_or_insert_witness :
    ((add sampleInsts instBClone).1 = some () ∧
      (add sampleInsts instBClone).2 = sampleInsts) ∧
    ((add [] instBClone).1 = none ∧
      (add [] instBClone).2 = dictInsert [] instBClone.id instBClone ∧
      lookupInst (add [] instBClone).2 instBClone.id = some instBClone) := by
  constructor
  · exact (add_name_unique_or_insert sampleInsts instBClone).1
      ⟨by decide, ("x1", instB), by decide, by decide, by decide⟩
  · exact (add_name_unique_or_insert [] instBClone).2
      (Or.inr (by intro p hp; cases hp))

/-- C4: `find_by_name_or_id` resolves in the deterministic order: exact id,
first id-prefix match, first exact truthy-name match, first
case-insensitive substring match on a truthy name, else nothing. In
particular an id-prefix match wins over any exact-name match (second
conjunct holds with no assumption on name matches). -/
theorem find_by_name_or_id_resolution_order (insts : Instances)
    (identifier : String) :
    (∀ i, lookupInst insts identifier = some i →
      find_by_name_or_id insts identifier = some i) ∧
    (lookupInst insts identifier = none →
      ∀ p, insts.find? (fun q => strStartsWith q.1 identifier) = some p →
        find_by_name_or_id insts identifier = some p.2) ∧
    (lookupInst insts identifier = none →
      insts.find? (fun q => strStartsWith q.1 identifier) = none →
      ∀ p, insts.find? (fun q => truthy q.2.name && q.2.name == some identifier) = some p →
        find_by_name_or_id insts identifier = some p.2) ∧
    (lookupInst insts identifier = none →
      insts.find? (fun q => strStartsWith q.1 identifier) = none →
      insts.find? (fun q => truthy q.2.name && q.2.name == some identifier) = none →
      ∀ p, insts.find? (fun q =>
          truthy q.2.name && strContainsCI (q.2.name.getD "") identifier) = some p →
        find_by_name_or_id insts identifier = some p.2) ∧
    (lookupInst insts identifier = none →
      insts.find? (fun q => strStartsWith q.1 identifier) = none →
      insts.find? (fun q => truthy q.2.name && q.2.name == some identifier) = none →
      insts.find? (fun q =>
        truthy q.2.name && strContainsCI (q.2.name.getD "") identifier) = none →
      find_by_name_or_id insts identifier = none) := by
  refine ⟨?_, ?_, ?_, ?_, ?_⟩
  · intro i h1
    unfold find_by_name_or_id
    rw [h1]
  · intro h1 p h2
    unfold find_by_name_or_id
    rw [h1, h2]
  · intro h1 h2 p h3
    unfold find_by_name_or_id
    rw [h1, h2, h3]
  · intro h1 h2 h3 p h4
    unfold find_by_name_or_id
    rw [h1, h2, h3, h4]
  · intro h1 h2 h3 h4
    unfold find_by_name_or_id
    rw [h1, h2, h3, h4]

/-- Witness for C4 at a concrete input: in `sampleInsts` the query `abc`
has an id-prefix match (`abc123`, named `zeta`) and an unrelated
exact-name match (`instB`, named `abc`); resolution returns the id-prefix
match. -/
theorem find_by_name_or_id_resolution_order_witness :
    sampleInsts.find?
      (fun q => truthy q.2.name && q.2.name == some "abc") = some ("x1", instB) ∧
    find_by_name_or_id sampleInsts "abc" = some instA := by
  constructor
  · decide
  · exact (find_by_name_or_id_resolution_order sampleInsts "abc").2.1
      (by decide) ("abc123", instA) (by decide)

/-- C8 counterexample: a store file whose content is valid JSON but fails
`StoreModel.model_validate` (e.g. the bytes `[1, 2]`) raises an uncaught
pydantic `ValidationError` — `except (json.JSONDecodeError, IOError)`
covers neither — so a Registry read is a hard failure, not an empty
store. -/
theorem load_raw_schema_failure_raises :
    load_raw RawFile.badSchema = Except.error () ∧
    list_all_from_file RawFile.badSchema false = Except.error () ∧
    get_from_file RawFile.badSchema "abc123" = Except.error () :=
  ⟨rfl, rfl, rfl⟩

/-- C8 amended: a missing store file, an unreadable file (`IOError`), or a
file that is not valid JSON (`json.JSONDecodeError`) is treated as an
empty store by every Registry read; only valid JSON failing schema
validation escapes the recovery. -/
theorem load_raw_missing_or_corrupt_json_empty (b : Bool) (k : String) :
    load_raw RawFile.missing = Except.ok {} ∧
    load_raw RawFile.unreadable = Except.ok {} ∧
    load_raw RawFile.badJson = Except.ok {} ∧
    list_all_from_file RawFile.missing b = Except.ok [] ∧
    list_all_from_file RawFile.unreadable b = Except.ok [] ∧
    list_all_from_file RawFile.badJson b = Except.ok [] ∧
    get_from_file RawFile.missing k = Except.ok none ∧
    get_from_file RawFile.unreadable k = Except.ok none ∧
    get_from_file RawFile.badJson k = Except.ok none := by
  cases b <;>
    exact ⟨rfl, rfl, rfl, rfl, rfl, rfl, rfl, rfl, rfl⟩

/-- Replacing the value stored under a key other than `k` leaves the
`find?` for key `k` unchanged. -/
theorem find?_map_replace_ne (id k : String) (w : InstanceMetadata)
    (hne : id ≠ k) (insts : Instances) :
    List.find? (fun p => p.1 == k)
      (insts.map (fun p => if p.1 == id then (p.1, w) else p)) =
    List.find? (fun p => p.1 == k) insts := by
  induction insts with
  | nil => rfl
  | cons hd tl ih =>
    simp only [List.map_cons]
    by_cases h : (hd.1 == id) = true
    · rw [if_pos h]
      have hdk : (hd.1 == k) = false := by
        have he : hd.1 = id := by simpa using h
        simp [he, hne]
      have hk1 : ¬ ((fun (p : String × InstanceMetadata) => p.1 == k) (hd.1, w) = true) := by
        simp [hdk]
      have hk2 : ¬ ((fun (p : String × InstanceMetadata) => p.1 == k) hd = true) := by
        simp [hdk]
      rw [@List.find?_cons_of_neg _ (fun p => p.1 == k) (hd.1, w) _ hk1,
          @List.find?_cons_of_neg _ (fun p => p.1 == k) hd _ hk2, ih]
    · rw [if_neg h]
      by_cases hk : (hd.1 == k) = true
      · rw [@List.find?_cons_of_pos _ (fun p => p.1 == k) hd _ hk,
            @List.find?_cons_of_pos _ (fun p => p.1 == k) hd _ hk]
      · rw [@List.find?_cons_of_neg _ (fun p => p.1 == k) hd _ hk,
            @List.find?_cons_of_neg _ (fun p => p.1 == k) hd _ hk, ih]

/-- `update` at one id does not disturb the record under another key. -/
theorem lookupInst_update_ne (insts : Instances) (id k : String)
    (f : InstanceMetadata → InstanceMetadata) (hne : id ≠ k) :
    lookupInst (update insts id f).2 k = lookupInst insts k := by
  unfold update
  cases h : lookupInst insts id with
  | none => rfl
  | some i =>
    show lookupInst (insts.map fun p => if p.1 == id then (p.1, f i) else p) k
      = lookupInst insts k
    unfold lookupInst
    rw [find?_map_replace_ne id k (f i) hne]

/-- `update` at a present id stores exactly the transformed record. -/
theorem lookupInst_update_self (insts : Instances) (id : String)
    (f : InstanceMetadata → InstanceMetadata) (i : InstanceMetadata)
    (h : lookupInst insts id = some i) :
    lookupInst (update insts id f).2 id = some (f i) := by
  unfold update
  rw [h]
  show lookupInst (insts.map fun p => if p.1 == id then (p.1, f i) else p) id
    = some (f i)
  unfold lookupInst
  rw [find?_map_replace]
  unfold lookupInst at h
  obtain ⟨p₀, hp₀, -⟩ := Option.map_eq_some'.mp h
  rw [hp₀]
  rfl

/-- A successful lookup names an entry of the list with that key. -/
theorem lookupInst_some (insts : Instances) (k : String)
    (i : InstanceMetadata) (h : lookupInst insts k = some i) :
    ∃ p, p ∈ insts ∧ p.1 = k ∧ p.2 = i := by
  unfold lookupInst at h
  obtain ⟨p₀, hp₀, hsnd⟩ := Option.map_eq_some'.mp h
  exact ⟨p₀, List.mem_of_find?_eq_some hp₀,
    by simpa using List.find?_some hp₀, hsnd⟩

/-- Lookup misses exactly when no entry carries the key. -/
theorem lookupInst_eq_none (insts : Instances) (k : String) :
    lookupInst insts k = none ↔ ∀ p ∈ insts, (p.1 == k) = false := by
  unfold lookupInst
  rw [Option.map_eq_none', List.find?_eq_none]
  simp

/-- With no duplicate keys, membership determines the lookup result. -/
theorem lookup_eq_of_mem_nodup (k : String) (v : InstanceMetadata) :
    ∀ (insts : Instances), (k, v) ∈ insts →
    (insts.map Prod.fst).Nodup → lookupInst insts k = some v := by
  intro insts
  induction insts with
  | nil => intro h _; cases h
  | cons hd tl ih =>
    intro hmem hnd
    rw [List.map_cons] at hnd
    have hnd' := List.nodup_cons.mp hnd
    rcases List.mem_cons.mp hmem with heq | htl
    · unfold lookupInst
      rw [@List.find?_cons_of_pos _ (fun p => p.1 == k) hd _
        (by rw [← heq]; simp)]
      rw [← heq]
      rfl
    · have hk : k ∈ tl.map Prod.fst := List.mem_map.mpr ⟨(k, v), htl, rfl⟩
      have hne : ¬ ((hd.1 == k) = true) := by
        simp only [beq_iff_eq]
        intro h
        exact hnd'.1 (h ▸ hk)
      unfold lookupInst
      rw [@List.find?_cons_of_neg _ (fun p => p.1 == k) hd _ hne]
      exact ih htl hnd'.2

/-- `insertByCreated` is a permutation of consing. -/
theorem insertByCreated_perm (i : InstanceMetadata)
    (l : List InstanceMetadata) :
    List.Perm (insertByCreated i l) (i :: l) := by
  induction l with
  | nil => exact List.Perm.refl _
  | cons j rest ih =>
    unfold insertByCreated
    by_cases h : j.created_at ≤ i.created_at
    · rw [if_pos h]
      exact List.Perm.trans (List.Perm.cons j ih) (List.Perm.swap i j rest)
    · rw [if_neg h]

/-- The insertion-sort fold is a permutation of appending. -/
theorem sort_foldl_perm (l : List InstanceMetadata) :
    ∀ acc, List.Perm (l.foldl (fun acc i => insertByCreated i acc) acc)
      (acc ++ l) := by
  induction l with
  | nil => intro acc; simp
  | cons x xs ih =>
    intro acc
    rw [List.foldl_cons]
    have h1 := ih (insertByCreated x acc)
    have h2 : List.Perm (insertByCreated x acc ++ xs) ((x :: acc) ++ xs) :=
      List.Perm.append_right xs (insertByCreated_perm x acc)
    have h3 : List.Perm ((x :: acc) ++ xs) (acc ++ x :: xs) := by
      simpa using List.perm_middle.symm
    exact (h1.trans h2).trans h3

/-- Sorting by `created_at` is a permutation. -/
theorem sortByCreated_perm (l : List InstanceMetadata) :
    List.Perm (sortByCreated l) l := by
  have h := sort_foldl_perm l []
  simpa [sortByCreated] using h

/-- The `refresh_statuses` snapshot is a permutation of the stored
records. -/
theorem list_all_true_perm (insts : Instances) :
    List.Perm (list_all insts true) (insts.map Prod.snd) := by
  show List.Perm (sortByCreated (insts.map Prod.snd)) (insts.map Prod.snd)
  exact sortByCreated_perm _

/-- `update` preserves the key list. -/
theorem keys_update (insts : Instances) (id : String)
    (f : InstanceMetadata → InstanceMetadata) :
    (update insts id f).2.map Prod.fst = insts.map Prod.fst := by
  unfold update
  cases h : lookupInst insts id with
  | none => rfl
  | some i =>
    show (insts.map fun p => if p.1 == id then (p.1, f i) else p).map Prod.fst
      = insts.map Prod.fst
    rw [List.map_map]
    apply List.map_congr_left
    intro p _
    show (if p.1 == id then (p.1, f i) else p).1 = p.1
    split <;> rfl

/-- `update` with an id-preserving transform preserves key/id agreement. -/
theorem wf_update (insts : Instances) (id : String)
    (f : InstanceMetadata → InstanceMetadata)
    (hf : ∀ j, (f j).id = j.id)
    (hwf : ∀ p ∈ insts, p.2.id = p.1) :
    ∀ p ∈ (update insts id f).2, p.2.id = p.1 := by
  unfold update
  cases h : lookupInst insts id with
  | none => exact hwf
  | some i =>
    intro p hp
    obtain ⟨q, hq, hpq⟩ := List.mem_map.mp hp
    obtain ⟨p₀, hp₀mem, hp₀k, hp₀v⟩ := lookupInst_some insts id i h
    by_cases hc : (q.1 == id) = true
    · rw [if_pos hc] at hpq
      rw [← hpq]
      show (f i).id = q.1
      rw [hf i, ← hp₀v, hwf p₀ hp₀mem, hp₀k]
      exact (beq_iff_eq.mp hc).symm
    · rw [if_neg hc] at hpq
      rw [← hpq]
      exact hwf q hq

/-- A `refresh_statuses` iteration for a foreign id leaves a key alone. -/
theorem lookup_refresh_one_ne (env : ManagerEnv) (st : Instances)
    (inst : InstanceMetadata) (k : String) (hne : inst.id ≠ k) :
    lookupInst (refresh_one env st inst) k = lookupInst st k := by
  unfold refresh_one
  by_cases h : env.windowExists inst.tmux_window = false
  · rw [if_pos h]
    by_cases hs : inst.status ≠ InstanceStatus.stopped
    · rw [if_pos hs]
      exact lookupInst_update_ne st inst.id k _ hne
    · rw [if_neg hs]
  · rw [if_neg h]
    exact lookupInst_update_ne st inst.id k _ hne

/-- A `refresh_statuses` iteration processing a record that is stored under
its own id rewrites it to `refreshResult`. -/
theorem lookup_refresh_one_self (env : ManagerEnv) (st : Instances)
    (inst : InstanceMetadata)
    (h : lookupInst st inst.id = some inst) :
    lookupInst (refresh_one env st inst) inst.id
      = some (refreshResult env inst) := by
  unfold refresh_one refreshResult
  by_cases hw : env.windowExists inst.tmux_window = false
  · rw [if_pos hw, if_pos hw]
    by_cases hs : inst.status ≠ InstanceStatus.stopped
    · rw [if_pos hs, if_pos hs]
      exact lookupInst_update_self st inst.id _ inst h
    · rw [if_neg hs, if_neg hs]
      exact h
  · rw [if_neg hw, if_neg hw]
    have hwt : env.windowExists inst.tmux_window = true := by
      cases hcase : env.windowExists inst.tmux_window
      · exact absurd hcase hw
      · rfl
    have hfind : find_by_name_or_id st inst.id = some inst := by
      unfold find_by_name_or_id
      rw [h]
    have hact : get_activity_state env st inst.id
        = env.detect inst.working_dir := by
      unfold get_activity_state
      rw [hfind]
      simp [hwt]
    simp only [hact]
    exact lookupInst_update_self st inst.id _ inst h

/-- A fold of `refresh_statuses` iterations over foreign ids leaves a key
alone. -/
theorem lookup_foldl_refresh_ne (env : ManagerEnv)
    (L : List InstanceMetadata) :
    ∀ (st : Instances) (k : String), (∀ x ∈ L, x.id ≠ k) →
    lookupInst (L.foldl (refresh_one env) st) k = lookupInst st k := by
  induction L with
  | nil => intro st k _; rfl
  | cons x xs ih =>
    intro st k hL
    rw [List.foldl_cons,
      ih _ k (fun y hy => hL y (List.mem_cons_of_mem x hy)),
      lookup_refresh_one_ne env st x k (hL x (List.mem_cons_self x xs))]

/-- `refresh_one` preserves the key list. -/
theorem keys_refresh_one (env : ManagerEnv) (st : Instances)
    (inst : InstanceMetadata) :
    (refresh_one env st inst).map Prod.fst = st.map Prod.fst := by
  unfold refresh_one
  by_cases h : env.windowExists inst.tmux_window = false
  · rw [if_pos h]
    by_cases hs : inst.status ≠ InstanceStatus.stopped
    · rw [if_pos hs]
      exact keys_update st inst.id _
    · rw [if_neg hs]
  · rw [if_neg h]
    exact keys_update st inst.id _

/-- The `refresh_statuses` fold preserves the key list. -/
theorem keys_foldl_refresh (env : ManagerEnv)
    (L : List InstanceMetadata) :
    ∀ st : Instances, (L.foldl (refresh_one env) st).map Prod.fst
      = st.map Prod.fst := by
  induction L with
  | nil => intro st; rfl
  | cons x xs ih =>
    intro st
    rw [List.foldl_cons, ih, keys_refresh_one]

/-- `refresh_statuses` preserves the key list. -/
theorem keys_refresh_statuses (env : ManagerEnv) (insts : Instances) :
    (refresh_statuses env insts).map Prod.fst = insts.map Prod.fst := by
  unfold refresh_statuses
  exact keys_foldl_refresh env _ insts

/-- `refresh_one` preserves key/id agreement. -/
theorem wf_refresh_one (env : ManagerEnv) (st : Instances)
    (inst : InstanceMetadata) (hwf : ∀ p ∈ st, p.2.id = p.1) :
    ∀ p ∈ refresh_one env st inst, p.2.id = p.1 := by
  unfold refresh_one
  by_cases h : env.windowExists inst.tmux_window = false
  · rw [if_pos h]
    by_cases hs : inst.status ≠ InstanceStatus.stopped
    · rw [if_pos hs]
      exact wf_update st inst.id _ (fun j => rfl) hwf
    · rw [if_neg hs]
      exact hwf
  · rw [if_neg h]
    exact wf_update st inst.id _ (fun j => rfl) hwf

/-- The `refresh_statuses` fold preserves key/id agreement. -/
theorem wf_foldl_refresh (env : ManagerEnv) (L : List InstanceMetadata) :
    ∀ st : Instances, (∀ p ∈ st, p.2.id = p.1) →
    ∀ p ∈ L.foldl (refresh_one env) st, p.2.id = p.1 := by
  induction L with
  | nil => intro st hwf; exact hwf
  | cons x xs ih =>
    intro st hwf
    rw [List.foldl_cons]
    exact ih _ (wf_refresh_one env st x hwf)

/-- `refresh_statuses` preserves key/id agreement. -/
theorem wf_refresh_statuses (env : ManagerEnv) (insts : Instances)
    (hwf : ∀ p ∈ insts, p.2.id = p.1) :
    ∀ p ∈ refresh_statuses env insts, p.2.id = p.1 := by
  unfold refresh_statuses
  exact wf_foldl_refresh env _ insts hwf

/-- The record written by a record's own iteration has the status
`targetStatus`, a function of its window target and working directory. -/
theorem refreshResult_status (env : ManagerEnv) (inst : InstanceMetadata) :
    (refreshResult env inst).status = targetStatus env inst := by
  unfold refreshResult targetStatus
  by_cases hw : env.windowExists inst.tmux_window = false
  · rw [if_pos hw]
    by_cases hs : inst.status ≠ InstanceStatus.stopped
    · rw [if_pos hs]
      simp [hw]
    · rw [if_neg hs]
      simp [hw, not_not.mp hs]
  · have hwt : env.windowExists inst.tmux_window = true := by
      cases hcase : env.windowExists inst.tmux_window
      · exact absurd hcase hw
      · rfl
    rw [if_neg hw]
    simp [hwt]

/-- A record's own iteration only touches `status` and `last_activity`. -/
theorem refreshResult_fields (env : ManagerEnv) (inst : InstanceMetadata) :
    (refreshResult env inst).id = inst.id ∧
    (refreshResult env inst).tmux_window = inst.tmux_window ∧
    (refreshResult env inst).working_dir = inst.working_dir ∧
    (refreshResult env inst).created_at = inst.created_at := by
  unfold refreshResult
  split_ifs <;> exact ⟨rfl, rfl, rfl, rfl⟩

/-- `targetStatus` depends only on the window target and working
directory. -/
theorem targetStatus_congr (env : ManagerEnv) (a b : InstanceMetadata)
    (hw : a.tmux_window = b.tmux_window)
    (hd : a.working_dir = b.working_dir) :
    targetStatus env a = targetStatus env b := by
  unfold targetStatus
  rw [hw, hd]

/-- After one `refresh_statuses` pass over a well-keyed store, the record
under each present key is exactly `refreshResult` of the stored record. -/
theorem refresh_statuses_char (env : ManagerEnv) (insts : Instances)
    (hnd : (insts.map Prod.fst).Nodup)
    (hwf : ∀ p ∈ insts, p.2.id = p.1)
    (k : String) (i : InstanceMetadata)
    (hk : lookupInst insts k = some i) :
    lookupInst (refresh_statuses env insts) k = some (refreshResult env i) := by
  obtain ⟨p₀, hp₀mem, hp₀k, hp₀v⟩ := lookupInst_some insts k i hk
  have hid : i.id = k := by rw [← hp₀v, hwf p₀ hp₀mem, hp₀k]
  have hival : i ∈ insts.map Prod.snd := List.mem_map.mpr ⟨p₀, hp₀mem, hp₀v⟩
  have hsnap : i ∈ list_all insts true :=
    (List.Perm.mem_iff (list_all_true_perm insts)).mpr hival
  obtain ⟨L₁, L₂, hdecomp⟩ := List.append_of_mem hsnap
  have hids : ((list_all insts true).map (fun j => j.id)).Nodup := by
    have hperm2 : List.Perm ((list_all insts true).map (fun j => j.id))
        ((insts.map Prod.snd).map (fun j => j.id)) :=
      (list_all_true_perm insts).map _
    have hkeys : (insts.map Prod.snd).map (fun j => j.id)
        = insts.map Prod.fst := by
      rw [List.map_map]
      exact List.map_congr_left (fun p hp => hwf p hp)
    exact hperm2.symm.nodup (hkeys ▸ hnd)
  rw [hdecomp, List.map_append, List.map_cons] at hids
  obtain ⟨h₁, h₂, hdisj⟩ := List.nodup_append.mp hids
  have hL₁ : ∀ x ∈ L₁, x.id ≠ k := by
    intro x hx heq
    exact hdisj (List.mem_map.mpr ⟨x, hx, rfl⟩)
      (by rw [heq, ← hid]; exact List.mem_cons_self _ _)
  have hL₂ : ∀ x ∈ L₂, x.id ≠ k := by
    intro x hx heq
    have hcons := List.nodup_cons.mp h₂
    exact hcons.1 (List.mem_map.mpr ⟨x, hx, (hid.trans heq.symm).symm⟩)
  unfold refresh_statuses
  rw [hdecomp, List.foldl_append, List.foldl_cons]
  have hafterL₁ : lookupInst (L₁.foldl (refresh_one env) insts) k = some i := by
    rw [lookup_foldl_refresh_ne env L₁ insts k hL₁]
    exact hk
  have hstep : lookupInst
      (refresh_one env (L₁.foldl (refresh_one env) insts) i) k
      = some (refreshResult env i) := by
    have hself := lookup_refresh_one_self env
      (L₁.foldl (refresh_one env) insts) i (by rw [hid]; exact hafterL₁)
    rw [hid] at hself
    exact hself
  rw [lookup_foldl_refresh_ne env L₂ _ k hL₂]
  exact hstep

/-- C2 counterexample: `stoppedGhost` is stopped, its window still exists
in `cexEnv`, and `refresh_statuses` — which iterates over
`list_all(include_stopped=True)` — reclassifies it to `running`. The claim
that a stopped record can never leave `stopped` through reconciliation is
false on the code. -/
theorem refresh_statuses_revives_stopped_record :
    stoppedGhost.status = InstanceStatus.stopped ∧
    cexEnv.windowExists stoppedGhost.tmux_window = true ∧
    (lookupInst (refresh_statuses cexEnv cexInsts) "a1").map
      InstanceMetadata.status = some InstanceStatus.running := by
  refine ⟨rfl, rfl, ?_⟩
  decide

/-- C2 amended: `refresh_statuses` iterates over all records, stopped ones
included; a stopped record whose window no longer exists is left entirely
unchanged (stopped is terminal only while the window stays dead — a
stopped record whose window still exists is reclassified). -/
theorem refresh_statuses_stopped_dead_window_stays (env : ManagerEnv)
    (insts : Instances)
    (hnd : (insts.map Prod.fst).Nodup)
    (hwf : ∀ p ∈ insts, p.2.id = p.1)
    (k : String) (i : InstanceMetadata)
    (hk : lookupInst insts k = some i)
    (hstop : i.status = InstanceStatus.stopped)
    (hdead : env.windowExists i.tmux_window = false) :
    lookupInst (refresh_statuses env insts) k = some i := by
  have hchar := refresh_statuses_char env insts hnd hwf k i hk
  have hfix : refreshResult env i = i := by
    unfold refreshResult
    rw [if_pos hdead, if_neg (by rw [hstop]; exact fun hcon => hcon rfl)]
  rw [hfix] at hchar
  exact hchar

/-- Witness for the amended C2 at a concrete input: with every window dead,
refreshing a registry holding the stopped `stoppedGhost` leaves its record
untouched. -/
theorem refresh_statuses_stopped_dead_window_stays_witness :
    lookupInst (refresh_statuses deadEnv cexInsts) "a1" = some stoppedGhost :=
  refresh_statuses_stopped_dead_window_stays deadEnv cexInsts
    (by decide) (by decide) "a1" stoppedGhost (by decide) (by decide) (by decide)

/-- C9: with the environment (window existence, log content, clock) frozen,
running `refresh_statuses` twice leaves every record with the same status
as after the first run. -/
theorem refresh_statuses_idempotent (env : ManagerEnv) (insts : Instances)
    (hnd : (insts.map Prod.fst).Nodup)
    (hwf : ∀ p ∈ insts, p.2.id = p.1)
    (k : String) :
    (lookupInst (refresh_statuses env (refresh_statuses env insts)) k).map
      InstanceMetadata.status
    = (lookupInst (refresh_statuses env insts) k).map
      InstanceMetadata.status := by
  cases hk : lookupInst insts k with
  | none =>
    have honce : lookupInst (refresh_statuses env insts) k = none := by
      rw [lookupInst_eq_none] at hk ⊢
      intro p hp
      have hpk : p.1 ∈ (refresh_statuses env insts).map Prod.fst :=
        List.mem_map.mpr ⟨p, hp, rfl⟩
      rw [keys_refresh_statuses] at hpk
      obtain ⟨q, hq, hq1⟩ := List.mem_map.mp hpk
      exact hq1 ▸ hk q hq
    have htwice : lookupInst
        (refresh_statuses env (refresh_statuses env insts)) k = none := by
      rw [lookupInst_eq_none] at honce ⊢
      intro p hp
      have hpk : p.1 ∈
          (refresh_statuses env (refresh_statuses env insts)).map Prod.fst :=
        List.mem_map.mpr ⟨p, hp, rfl⟩
      rw [keys_refresh_statuses] at hpk
      obtain ⟨q, hq, hq1⟩ := List.mem_map.mp hpk
      exact hq1 ▸ honce q hq
    rw [honce, htwice]
  | some i =>
    have h1 := refresh_statuses_char env insts hnd hwf k i hk
    have hnd2 : ((refresh_statuses env insts).map Prod.fst).Nodup := by
      rw [keys_refresh_statuses]
      exact hnd
    have hwf2 := wf_refresh_statuses env insts hwf
    have h2 := refresh_statuses_char env (refresh_statuses env insts)
      hnd2 hwf2 k (refreshResult env i) h1
    rw [h1, h2]
    simp only [Option.map_some']
    congr 1
    rw [refreshResult_status, refreshResult_status]
    exact targetStatus_congr env _ _ (refreshResult_fields env i).2.1
      (refreshResult_fields env i).2.2.1

/-- Witness for C9 at a concrete input: the registry holding
`stoppedGhost` under the all-windows-alive environment reaches the same
status after two refreshes as after one. -/
theorem refresh_statuses_idempotent_witness :
    (lookupInst (refresh_statuses cexEnv (refresh_statuses cexEnv cexInsts))
      "a1").map InstanceMetadata.status
    = (lookupInst (refresh_statuses cexEnv cexInsts) "a1").map
      InstanceMetadata.status :=
  refresh_statuses_idempotent cexEnv cexInsts (by decide) (by decide) "a1"

/-- A successful `find_by_name_or_id` returns a stored value. -/
theorem find_by_name_or_id_mem (insts : Instances) (q : String)
    (i : InstanceMetadata) (h : find_by_name_or_id insts q = some i) :
    ∃ p, p ∈ insts ∧ p.2 = i := by
  unfold find_by_name_or_id at h
  cases h1 : lookupInst insts q with
  | some j =>
    rw [h1] at h
    obtain ⟨p₀, hp₀mem, -, hp₀v⟩ := lookupInst_some insts q j h1
    exact ⟨p₀, hp₀mem, by rw [hp₀v]; exact Option.some.inj h⟩
  | none =>
    rw [h1] at h
    cases h2 : insts.find? (fun p => strStartsWith p.1 q) with
    | some p =>
      rw [h2] at h
      exact ⟨p, List.mem_of_find?_eq_some h2, Option.some.inj h⟩
    | none =>
      rw [h2] at h
      cases h3 : insts.find? (fun p => truthy p.2.name && p.2.name == some q) with
      | some p =>
        rw [h3] at h
        exact ⟨p, List.mem_of_find?_eq_some h3, Option.some.inj h⟩
      | none =>
        rw [h3] at h
        cases h4 : insts.find? (fun p =>
            truthy p.2.name && strContainsCI (p.2.name.getD "") q) with
        | some p =>
          rw [h4] at h
          exact ⟨p, List.mem_of_find?_eq_some h4, Option.some.inj h⟩
        | none =>
          rw [h4] at h
          cases h

/-- C6: `stop_instance` returns `False` exactly when the identifier does
not resolve (leaving the store untouched); when it resolves it returns
`True` and marks the record `stopped`, and the outcome is the same in
every environment — the interrupt and the window kill may both fail
(window already gone) without affecting the result. -/
theorem stop_instance_spec (env : ManagerEnv) (insts : Instances)
    (identifier : String) (force : Bool)
    (hnd : (insts.map Prod.fst).Nodup)
    (hwf : ∀ p ∈ insts, p.2.id = p.1) :
    (find_by_name_or_id insts identifier = none →
      stop_instance env insts identifier force = (false, insts)) ∧
    (∀ inst, find_by_name_or_id insts identifier = some inst →
      (stop_instance env insts identifier force).1 = true ∧
      lookupInst (stop_instance env insts identifier force).2 inst.id
        = some { inst with status := InstanceStatus.stopped }) ∧
    (∀ env₂, stop_instance env insts identifier force
      = stop_instance env₂ insts identifier force) := by
  refine ⟨?_, ?_, ?_⟩
  · intro h
    unfold stop_instance
    rw [h]
  · intro inst h
    obtain ⟨p, hpmem, hpv⟩ := find_by_name_or_id_mem insts identifier inst h
    have hid : inst.id = p.1 := by rw [← hpv]; exact hwf p hpmem
    have hlk : lookupInst insts inst.id = some inst := by
      rw [hid]
      exact lookup_eq_of_mem_nodup p.1 inst insts (by
        have : p = (p.1, inst) := by
          rw [← hpv]
        rw [← this]
        exact hpmem) hnd
    constructor
    · unfold stop_instance
      rw [h]
    · show lookupInst (stop_instance env insts identifier force).2 inst.id
        = some { inst with status := InstanceStatus.stopped }
      unfold stop_instance
      rw [h]
      exact lookupInst_update_self insts inst.id _ inst hlk
  · intro env₂
    unfold stop_instance
    cases h : find_by_name_or_id insts identifier with
    | none => rfl
    | some inst => rfl

/-- Witness for C6 at concrete inputs: stopping `alpha` with every window
dead and every tmux command failing still returns `True` and marks the
record stopped; stopping an unresolvable identifier returns `False`. -/
theorem stop_instance_spec_witness :
    (stop_instance deadEnv alphaInsts "alpha" false).1 = true ∧
    lookupInst (stop_instance deadEnv alphaInsts "alpha" false).2
      alphaInst.id = some { alphaInst with status := InstanceStatus.stopped } ∧
    stop_instance deadEnv [] "nosuch" false = (false, []) := by
  have h := stop_instance_spec deadEnv alphaInsts "alpha" false
    (by decide) (by decide)
  have h2 := h.2.1 alphaInst (by decide)
  refine ⟨h2.1, h2.2, ?_⟩
  have h3 := stop_instance_spec deadEnv [] "nosuch" false
    (by decide) (by decide)
  exact h3.1 (by decide)

/-- Prepending one poll: a stable run either starts at the new first poll
(the next `sc` polls all hash like it) or lies within the tail. -/
theorem hasStableRun_cons (h : String → Nat) (sc : Nat) (c : String)
    (rest : List String) :
    hasStableRun h sc (c :: rest) ↔
      ((sc ≤ rest.length ∧ ∀ j, j < sc → h (rest.getD j "") = h c) ∨
        hasStableRun h sc rest) := by
  constructor
  · rintro ⟨i, hlen, hrun⟩
    cases i with
    | zero =>
      left
      refine ⟨?_, ?_⟩
      · simp only [List.length_cons] at hlen
        omega
      · intro j hj
        have hk := hrun (j + 1) (by omega)
        simpa using hk
    | succ i' =>
      right
      refine ⟨i', ?_, ?_⟩
      · simp only [List.length_cons] at hlen
        omega
      · intro k hk
        have h1 := hrun k hk
        have e : i' + 1 + k = (i' + k) + 1 := by omega
        rw [e, List.getD_cons_succ, List.getD_cons_succ] at h1
        exact h1
  · rintro (⟨hlen, hpre⟩ | ⟨i, hlen, hrun⟩)
    · refine ⟨0, ?_, ?_⟩
      · simp only [List.length_cons]
        omega
      · intro k hk
        cases k with
        | zero => rfl
        | succ j => simpa using hpre j (by omega)
    · refine ⟨i + 1, ?_, ?_⟩
      · simp only [List.length_cons]
        omega
      · intro k hk
        have e : i + 1 + k = (i + k) + 1 := by omega
        rw [e, List.getD_cons_succ, List.getD_cons_succ]
        exact hrun k hk

/-- Characterisation of the `wait_for_idle` loop from an arbitrary state:
with `last_hash = some v` and `stable = s` (`s < sc`), it returns `True`
exactly when the next `sc - s` polls all hash to `v`, or a full fresh
stable run occurs further on. -/
theorem wfi_loop_char (h : String → Nat) (sc : Nat) (l : List String) :
    ∀ (v : Nat) (s : Nat), s < sc →
      (wait_for_idle_loop h sc l (some v) s = true ↔
        ((sc - s ≤ l.length ∧ ∀ j, j < sc - s → h (l.getD j "") = v) ∨
          hasStableRun h sc l)) := by
  induction l with
  | nil =>
    intro v s hs
    simp only [wait_for_idle_loop]
    constructor
    · intro hcon
      cases hcon
    · rintro (⟨hlen, -⟩ | ⟨i, hlen, -⟩)
      · simp only [List.length_nil] at hlen
        omega
      · simp only [List.length_nil] at hlen
        omega
  | cons c rest ih =>
    intro v s hs
    simp only [wait_for_idle_loop]
    rw [hasStableRun_cons]
    by_cases hc : h c = v
    · rw [if_pos (by rw [hc])]
      by_cases hstop : s + 1 ≥ sc
      · rw [if_pos hstop]
        constructor
        · intro _
          left
          have hscs : sc - s = 1 := by omega
          rw [hscs]
          refine ⟨Nat.succ_le_succ (Nat.zero_le _), ?_⟩
          intro j hj
          have hj0 : j = 0 := by omega
          subst hj0
          simpa using hc
        · intro _
          rfl
      · rw [if_neg hstop]
        rw [ih v (s + 1) (by omega)]
        constructor
        · rintro (⟨hlen, hpre⟩ | hrun)
          · left
            refine ⟨?_, ?_⟩
            · simp only [List.length_cons]
              omega
            · intro j hj
              cases j with
              | zero => simpa using hc
              | succ j' => simpa using hpre j' (by omega)
          · right
            right
            exact hrun
        · rintro (⟨hlen, hpre⟩ | hrest)
          · left
            refine ⟨?_, ?_⟩
            · simp only [List.length_cons] at hlen
              omega
            · intro j hj
              have := hpre (j + 1) (by omega)
              simpa using this
          · cases hrest with
            | inl h0 =>
              left
              obtain ⟨hlen0, hall⟩ := h0
              refine ⟨by omega, ?_⟩
              intro j hj
              rw [hall j (by omega), hc]
            | inr hrun =>
              right
              exact hrun
    · rw [if_neg (by simp [hc])]
      rw [ih (h c) 0 (by omega)]
      simp only [Nat.sub_zero]
      constructor
      · rintro (hpre | hrun)
        · right
          left
          exact hpre
        · right
          right
          exact hrun
      · rintro (⟨hlen, hpre⟩ | hrest)
        · exfalso
          have h0 := hpre 0 (by omega)
          simp only [List.getD_cons_zero] at h0
          exact hc h0
        · exact hrest

/-- C7: `wait_for_idle` returns `True` exactly when, within the polls the
timeout admits, the hash of the captured pane content is unchanged for
`stable_count` consecutive polls (a run of `stable_count + 1` equal-hash
captures; any change resets the counter), and returns `False` when the
poll sequence is exhausted — the timeout elapsing — without such a run. -/
theorem wait_for_idle_stable_iff (h : String → Nat)
    (captures : List String) (stable_count : Nat)
    (hsc : 1 ≤ stable_count) :
    wait_for_idle h captures stable_count = true ↔
      hasStableRun h stable_count captures := by
  unfold wait_for_idle
  cases captures with
  | nil =>
    simp only [wait_for_idle_loop]
    constructor
    · intro hcon
      cases hcon
    · rintro ⟨i, hlen, -⟩
      simp only [List.length_nil] at hlen
      omega
  | cons c rest =>
    simp only [wait_for_idle_loop]
    rw [if_neg (by simp)]
    rw [wfi_loop_char h stable_count rest (h c) 0 (by omega)]
    rw [hasStableRun_cons]
    simp only [Nat.sub_zero]

/-- Witness for C7 at a concrete input: with hash = content length,
stability 3 and five polls `a, bb, bb, bb, bb`, the last four polls form a
stable run, so `wait_for_idle` reports idle. -/
theorem wait_for_idle_stable_iff_witness :
    wait_for_idle sampleHash ["a", "bb", "bb", "bb", "bb"] 3 = true :=
  (wait_for_idle_stable_iff sampleHash ["a", "bb", "bb", "bb", "bb"] 3
    (by decide)).mpr ⟨1, by decide⟩

/-- Decimal digit characters are distinct. -/
theorem digitChar_inj : ∀ a < 10, ∀ b < 10,
    digitChar a = digitChar b → a = b := by
  decide

/-- `pad2` always renders two characters. -/
theorem pad2_len (n : Nat) : (pad2 n).data.length = 2 := rfl

/-- `pad4` always renders four characters. -/
theorem pad4_len (n : Nat) : (pad4 n).data.length = 4 := rfl

/-- `pad2` is injective below 100. -/
theorem pad2_inj (m n : Nat) (hm : m < 100) (hn : n < 100)
    (h : pad2 m = pad2 n) : m = n := by
  have hdata : [digitChar (m / 10), digitChar (m % 10)]
      = [digitChar (n / 10), digitChar (n % 10)] := congrArg String.data h
  simp only [List.cons.injEq, and_true] at hdata
  obtain ⟨h1, h2⟩ := hdata
  have e1 := digitChar_inj (m / 10) (by omega) (n / 10) (by omega) h1
  have e2 := digitChar_inj (m % 10) (by omega) (n % 10) (by omega) h2
  omega

/-- `pad4` is injective below 10000. -/
theorem pad4_inj (m n : Nat) (hm : m < 10000) (hn : n < 10000)
    (h : pad4 m = pad4 n) : m = n := by
  have hdata : (pad2 (m / 100)).data ++ (pad2 (m % 100)).data
      = (pad2 (n / 100)).data ++ (pad2 (n % 100)).data := by
    have hc := congrArg String.data h
    simpa [pad4, String.data_append] using hc
  obtain ⟨ha, hb⟩ := List.append_inj hdata (by rw [pad2_len, pad2_len])
  have e1 := pad2_inj (m / 100) (n / 100) (by omega) (by omega)
    (congrArg String.mk ha)
  have e2 := pad2_inj (m % 100) (n % 100) (by omega) (by omega)
    (congrArg String.mk hb)
  omega

/-- The second-resolution strftime rendering is injective on the
second-resolution key for in-range datetimes. -/
theorem strftimeSecond_inj (t₁ t₂ : DateTime)
    (h₁ : validRange t₁) (h₂ : validRange t₂)
    (h : strftimeSecond t₁ = strftimeSecond t₂) :
    secondKey t₁ = secondKey t₂ := by
  obtain ⟨hy₁, hmo₁, hd₁, hh₁, hmi₁, hs₁⟩ := h₁
  obtain ⟨hy₂, hmo₂, hd₂, hh₂, hmi₂, hs₂⟩ := h₂
  have hdata := congrArg String.data h
  simp only [strftimeSecond, String.data_append, List.append_assoc] at hdata
  obtain ⟨e₁, hdata⟩ := List.append_inj hdata (by rw [pad4_len, pad4_len])
  obtain ⟨e₂, hdata⟩ := List.append_inj hdata (by rw [pad2_len, pad2_len])
  obtain ⟨e₃, hdata⟩ := List.append_inj hdata (by rw [pad2_len, pad2_len])
  obtain ⟨-, hdata⟩ := List.append_inj hdata rfl
  obtain ⟨e₄, hdata⟩ := List.append_inj hdata (by rw [pad2_len, pad2_len])
  obtain ⟨e₅, e₆⟩ := List.append_inj hdata (by rw [pad2_len, pad2_len])
  have hy := pad4_inj t₁.year t₂.year hy₁ hy₂ (congrArg String.mk e₁)
  have hmo := pad2_inj t₁.month t₂.month hmo₁ hmo₂ (congrArg String.mk e₂)
  have hd := pad2_inj t₁.day t₂.day hd₁ hd₂ (congrArg String.mk e₃)
  have hh := pad2_inj t₁.hour t₂.hour hh₁ hh₂ (congrArg String.mk e₄)
  have hmi := pad2_inj t₁.minute t₂.minute hmi₁ hmi₂ (congrArg String.mk e₅)
  have hs := pad2_inj t₁.second t₂.second hs₁ hs₂ (congrArg String.mk e₆)
  unfold secondKey
  rw [hy, hmo, hd, hh, hmi, hs]

/-- Replacing the value stored under one path leaves `find?` for another
path unchanged (generic association-list version). -/
theorem find?_replace_ne_generic {β : Type} (idp k : String) (w : β)
    (hne : idp ≠ k) (l : List (String × β)) :
    List.find? (fun p => p.1 == k)
      (l.map (fun p => if p.1 == idp then (p.1, w) else p)) =
    List.find? (fun p => p.1 == k) l := by
  induction l with
  | nil => rfl
  | cons hd tl ih =>
    simp only [List.map_cons]
    by_cases h : (hd.1 == idp) = true
    · rw [if_pos h]
      have hdk : (hd.1 == k) = false := by
        have he : hd.1 = idp := by simpa using h
        simp [he, hne]
      have hk1 : ¬ ((fun (p : String × β) => p.1 == k) (hd.1, w) = true) := by
        simp [hdk]
      have hk2 : ¬ ((fun (p : String × β) => p.1 == k) hd = true) := by
        simp [hdk]
      rw [@List.find?_cons_of_neg _ (fun p => p.1 == k) (hd.1, w) _ hk1,
          @List.find?_cons_of_neg _ (fun p => p.1 == k) hd _ hk2, ih]
    · rw [if_neg h]
      by_cases hk : (hd.1 == k) = true
      · rw [@List.find?_cons_of_pos _ (fun p => p.1 == k) hd _ hk,
            @List.find?_cons_of_pos _ (fun p => p.1 == k) hd _ hk]
      · rw [@List.find?_cons_of_neg _ (fun p => p.1 == k) hd _ hk,
            @List.find?_cons_of_neg _ (fun p => p.1 == k) hd _ hk, ih]

/-- `mark_delivered` on one path leaves every other file untouched. -/
theorem mark_delivered_other (fs : NotifDir) (p₁ p₂ : String)
    (now : DateTime) (hne : p₁ ≠ p₂) :
    fsLookup (mark_delivered fs p₁ now).2 p₂ = fsLookup fs p₂ := by
  unfold mark_delivered
  cases h : fsLookup fs p₁ with
  | none => rfl
  | some c =>
    cases c with
    | none => rfl
    | some n =>
      show fsLookup (fs.map fun p =>
        if p.1 == p₁ then
          (p.1, some { n with delivered := true, delivered_at := some now })
        else p) p₂ = fsLookup fs p₂
      unfold fsLookup
      rw [find?_replace_ne_generic p₁ p₂ _ hne]

/-- C5 counterexample: two notifications with identical worker name and
worker id whose `created_at` differ only in the microsecond field — hence
are different timestamps — render the same second-resolution filename, so
the deterministic scheme does not give distinct filenames for every pair
of distinct timestamps. -/
theorem get_filename_microsecond_collision :
    notifMicroA.worker_name = notifMicroB.worker_name ∧
    notifMicroA.worker_id = notifMicroB.worker_id ∧
    notifMicroA.created_at ≠ notifMicroB.created_at ∧
    get_filename notifMicroA = get_filename notifMicroB := by
  refine ⟨rfl, rfl, by decide, ?_⟩
  rfl

/-- C5 amended: two notifications with identical worker name and worker id
whose creation timestamps differ at second resolution (in the
`%Y%m%d_%H%M%S` fields) produce distinct filenames, and `mark_delivered`
on one notification's file leaves the other notification's stored content
— its `delivered` flag included — unchanged. -/
theorem notification_filenames_second_distinct (n₁ n₂ : Notification)
    (hname : n₁.worker_name = n₂.worker_name)
    (hwid : n₁.worker_id = n₂.worker_id)
    (hv₁ : validRange n₁.created_at) (hv₂ : validRange n₂.created_at)
    (hsec : secondKey n₁.created_at ≠ secondKey n₂.created_at) :
    get_filename n₁ ≠ get_filename n₂ ∧
    ∀ (fs : NotifDir) (now : DateTime),
      fsLookup (mark_delivered fs (get_filename n₁) now).2 (get_filename n₂)
        = fsLookup fs (get_filename n₂) := by
  have hneq : get_filename n₁ ≠ get_filename n₂ := by
    intro h
    apply hsec
    have hdata := congrArg String.data h
    simp only [get_filename, String.data_append, List.append_assoc,
      hname, hwid] at hdata
    have hd1 := List.append_cancel_left hdata
    have hd2 := List.append_cancel_left hd1
    have hd3 := List.append_cancel_left hd2
    have hd4 := List.append_cancel_left hd3
    have hT : (strftimeSecond n₁.created_at).data
        = (strftimeSecond n₂.created_at).data :=
      List.append_cancel_right hd4
    exact strftimeSecond_inj _ _ hv₁ hv₂ (congrArg String.mk hT)
  exact ⟨hneq, fun fs now => mark_delivered_other fs _ _ now hneq⟩

/-- Witness for the amended C5 at concrete inputs: `notifMicroA` and
`notifSecB` differ in their second field, so their filenames differ, and
marking the first delivered leaves the second's file untouched in a
directory holding both. -/
theorem notification_filenames_second_distinct_witness :
    get_filename notifMicroA ≠ get_filename notifSecB ∧
    fsLookup (mark_delivered sampleNotifDir (get_filename notifMicroA)
        microT2).2 (get_filename notifSecB)
      = fsLookup sampleNotifDir (get_filename notifSecB) := by
  have h := notification_filenames_second_distinct notifMicroA notifSecB
    rfl rfl (by decide) (by decide) (by decide)
  exact ⟨h.1, h.2 sampleNotifDir microT2⟩

end Rushd
